import Mathlib

/-!
Shallow embedding of the frame render-graph scheduler and GPU
resource-allocation layer of the bevy-voxel-engine voxel renderer
(src/voxel_pipeline). Pure bookkeeping is translated directly; GPU
side effects (buffer writes, bind-group creation) are recorded as
abstract command values, and f32 matrix arithmetic is carried as
opaque data, since no verified claim depends on its numeric value.
-/

set_option autoImplicit false

/-- Entity identifier (bevy `Entity`). -/
abbrev Entity := Nat

/-- Handle into an asset collection (bevy `Handle<Image>` / asset ids). -/
abbrev ImageHandle := Nat

/-- Opaque value of a 4x4 f32 camera matrix. The claims verified here only
move these values around (store, recall, compare); no arithmetic on the
entries is modelled. -/
abbrev Mat4 := Int

/-! ### Association-list model of `bevy::utils::HashMap` and `Assets` -/

/-- First value stored under key `a` (bevy `HashMap::get` / `Assets::get`). -/
def alistLookup {α β : Type} [DecidableEq α] : List (α × β) → α → Option β
  | [], _ => none
  | (k, v) :: rest, a => if k = a then some v else alistLookup rest a

/-- Insert-or-overwrite under key `a` (bevy `HashMap::insert`,
`Assets::get_mut` followed by a write). -/
def alistInsert {α β : Type} [DecidableEq α] : List (α × β) → α → β → List (α × β)
  | [], a, b => [(a, b)]
  | (k, v) :: rest, a, b =>
    if k = a then (a, b) :: rest else (k, v) :: alistInsert rest a b

theorem alistLookup_insert_self {α β : Type} [DecidableEq α]
    (l : List (α × β)) (a : α) (b : β) :
    alistLookup (alistInsert l a b) a = some b := by
  induction l with
  | nil => simp [alistInsert, alistLookup]
  | cons p rest ih =>
    obtain ⟨k, v⟩ := p
    by_cases hk : k = a
    · simp [alistInsert, hk, alistLookup]
    · simp [alistInsert, hk, alistLookup, ih]

theorem alistLookup_insert_ne {α β : Type} [DecidableEq α]
    (l : List (α × β)) (a c : α) (b : β) (hne : a ≠ c) :
    alistLookup (alistInsert l a b) c = alistLookup l c := by
  induction l with
  | nil => simp [alistInsert, alistLookup, hne]
  | cons p rest ih =>
    obtain ⟨k, v⟩ := p
    by_cases hk : k = a
    · subst hk
      simp [alistInsert, alistLookup, hne]
    · simp [alistInsert, hk, alistLookup, ih]

theorem alistLookup_insert_isSome {α β : Type} [DecidableEq α]
    (l : List (α × β)) (a c : α) (b : β)
    (h : (alistLookup l c).isSome) :
    (alistLookup (alistInsert l a b) c).isSome := by
  by_cases hac : a = c
  · subst hac
    simp [alistLookup_insert_self]
  · rwa [alistLookup_insert_ne l a c b hac]

/-! ### Render graph assembly (`src/voxel_pipeline/mod.rs`)

`RenderPlugin::finish` builds the per-view voxel subgraph and inserts the
global compute chain into bevy's main render graph. Nodes, node edges and
slot edges are recorded in insertion order. -/

/-- Labels of the global (main render graph) compute chain,
`enum RenderGraphLabel` in mod.rs, plus bevy's built-in
`CameraDriverLabel` node that the chain hands off to. -/
inductive MainLabel where
  | Clear
  | Automata
  | Animation
  | CameraDriver
deriving DecidableEq, Repr

/-- Labels of the per-view voxel subgraph, `enum VoxelGraphLabel`. -/
inductive VoxelLabel where
  | Attachments
  | Trace
  | Tonemapping
  | Fxaa
  | Ui
  | Upscaling
  | Rebuild
  | Physics
deriving DecidableEq, Repr

/-- A render graph: nodes plus explicit execution-order edges and named
resource-slot edges (bevy `RenderGraph`). -/
structure GraphModel (L : Type) where
  nodes : List L
  nodeEdges : List (L × L)
  slotEdges : List (L × String × L × String)
deriving DecidableEq

def GraphModel.addNode {L : Type} (g : GraphModel L) (l : L) : GraphModel L :=
  { g with nodes := g.nodes ++ [l] }

def GraphModel.addNodeEdge {L : Type} (g : GraphModel L) (a b : L) : GraphModel L :=
  { g with nodeEdges := g.nodeEdges ++ [(a, b)] }

def GraphModel.addSlotEdge {L : Type} (g : GraphModel L) (a : L) (sa : String)
    (b : L) (sb : String) : GraphModel L :=
  { g with slotEdges := g.slotEdges ++ [(a, sa, b, sb)] }

/-- The voxel subgraph built by `RenderPlugin::finish`, statement for
statement in source order (mod.rs lines 74-107). -/
def buildVoxelGraph : GraphModel VoxelLabel :=
  (({ nodes := [], nodeEdges := [], slotEdges := [] } : GraphModel VoxelLabel)
    |>.addNode .Attachments
    |>.addNode .Trace
    |>.addNode .Tonemapping
    |>.addNode .Fxaa
    |>.addNode .Ui
    |>.addNode .Upscaling
    |>.addNodeEdge .Trace .Tonemapping
    |>.addNodeEdge .Tonemapping .Fxaa
    |>.addNodeEdge .Fxaa .Ui
    |>.addNodeEdge .Ui .Upscaling
    |>.addSlotEdge .Attachments "normal" .Trace "normal"
    |>.addSlotEdge .Attachments "position" .Trace "position"
    |>.addNode .Rebuild
    |>.addNode .Physics
    |>.addNodeEdge .Rebuild .Physics
    |>.addNodeEdge .Physics .Trace)

/-- The additions `RenderPlugin::finish` makes to bevy's main render graph
(mod.rs lines 110-118); the graph already holds the camera-driver node. -/
def buildMainGraph : GraphModel MainLabel :=
  (({ nodes := [.CameraDriver], nodeEdges := [], slotEdges := [] } : GraphModel MainLabel)
    |>.addNode .Clear
    |>.addNode .Automata
    |>.addNode .Animation
    |>.addNodeEdge .Clear .Automata
    |>.addNodeEdge .Automata .Animation
    |>.addNodeEdge .Animation .CameraDriver)

/-! ### Physics slot table (`src/voxel_pipeline/compute/mod.rs`, `PhysicsData`)

`PhysicsData` (compute/mod.rs lines 210-217) records `dispatch_size`,
`buffer_length` and the entity-to-slot map `entities`. -/

/-- CPU bookkeeping of the physics slot allocator, mirroring `PhysicsData`
minus the two GPU buffer handles. -/
structure PhysicsData where
  dispatch_size : Nat
  buffer_length : Nat
  entities : List (Entity × Nat)
deriving DecidableEq

/-- Assign consecutive slot indices starting at `i` to a list of entities. -/
def assignSlots : List Entity → Nat → List (Entity × Nat)
  | [], _ => []
  | e :: es, i => (e, i) :: assignSlots es (i + 1)

/-- Modelled from the spec: the per-frame slot-table rebuild system of the
Physics Slot Allocator is not among the sources under src/ (only the
`PhysicsData` record it fills, in compute/mod.rs, is). Spec section 4.1:
given the current set of physics-enabled entities E (size n) and the buffer
capacity, rebuild from scratch a dense table assigning each entity a unique
slot in `[0, n)`, with `dispatch_size = n` capped at capacity and entities
beyond capacity excluded. -/
def rebuildPhysicsSlots (physicsEntities : List Entity) (capacity : Nat) :
    PhysicsData :=
  let active := physicsEntities.take capacity
  { dispatch_size := active.length
    buffer_length := capacity
    entities := assignSlots active 0 }

theorem assignSlots_mem_bounds {l : List Entity} {i : Nat} {e : Entity} {s : Nat}
    (h : (e, s) ∈ assignSlots l i) : i ≤ s ∧ s < i + l.length := by
  induction l generalizing i with
  | nil => simp [assignSlots] at h
  | cons a l ih =>
    simp only [assignSlots, List.mem_cons] at h
    rcases h with h | h
    · obtain ⟨-, rfl⟩ := Prod.mk.injEq .. ▸ And.intro (congrArg Prod.fst h) (congrArg Prod.snd h)
      simp
    · have := ih h
      constructor <;> [omega; (simp only [List.length_cons]; omega)]

theorem assignSlots_dense {l : List Entity} {i s : Nat}
    (h₁ : i ≤ s) (h₂ : s < i + l.length) : ∃ e, (e, s) ∈ assignSlots l i := by
  induction l generalizing i with
  | nil => simp at h₂; omega
  | cons a l ih =>
    by_cases hs : s = i
    · exact ⟨a, by simp [assignSlots, hs]⟩
    · have h₁' : i + 1 ≤ s := by omega
      have h₂' : s < (i + 1) + l.length := by simp at h₂; omega
      obtain ⟨e, he⟩ := ih h₁' h₂'
      exact ⟨e, by simp [assignSlots, he]⟩

theorem assignSlots_slot_inj {l : List Entity} {i : Nat} {e₁ e₂ : Entity} {s : Nat}
    (h₁ : (e₁, s) ∈ assignSlots l i) (h₂ : (e₂, s) ∈ assignSlots l i) : e₁ = e₂ := by
  induction l generalizing i with
  | nil => simp [assignSlots] at h₁
  | cons a l ih =>
    simp only [assignSlots, List.mem_cons, Prod.mk.injEq] at h₁ h₂
    rcases h₁ with ⟨rfl, rfl⟩ | h₁
    · rcases h₂ with ⟨rfl, -⟩ | h₂
      · rfl
      · have := assignSlots_mem_bounds h₂
        omega
    · rcases h₂ with ⟨rfl, rfl⟩ | h₂
      · have := assignSlots_mem_bounds h₁
        omega
      · exact ih h₁ h₂

theorem assignSlots_mem_entity {l : List Entity} {i : Nat} {e : Entity} {s : Nat}
    (h : (e, s) ∈ assignSlots l i) : e ∈ l := by
  induction l generalizing i with
  | nil => simp [assignSlots] at h
  | cons a l ih =>
    simp only [assignSlots, List.mem_cons, Prod.mk.injEq] at h
    rcases h with ⟨heq, -⟩ | h
    · subst heq
      exact List.mem_cons_self _ _
    · exact List.mem_cons_of_mem a (ih h)

theorem assignSlots_entity_unique {l : List Entity} {i : Nat} {e : Entity} {s₁ s₂ : Nat}
    (hnd : l.Nodup)
    (h₁ : (e, s₁) ∈ assignSlots l i) (h₂ : (e, s₂) ∈ assignSlots l i) : s₁ = s₂ := by
  induction l generalizing i with
  | nil => simp [assignSlots] at h₁
  | cons a l ih =>
    have hnd' := List.nodup_cons.mp hnd
    simp only [assignSlots, List.mem_cons, Prod.mk.injEq] at h₁ h₂
    rcases h₁ with ⟨rfl, rfl⟩ | h₁
    · rcases h₂ with ⟨-, rfl⟩ | h₂
      · rfl
      · exact absurd (assignSlots_mem_entity h₂) hnd'.1
    · rcases h₂ with ⟨rfl, rfl⟩ | h₂
      · exact absurd (assignSlots_mem_entity h₁) hnd'.1
      · exact ih hnd'.2 h₁ h₂

theorem assignSlots_mem_of_mem {l : List Entity} {i : Nat} {e : Entity}
    (h : e ∈ l) : ∃ s, (e, s) ∈ assignSlots l i := by
  induction l generalizing i with
  | nil => simp at h
  | cons a l ih =>
    rcases List.mem_cons.mp h with rfl | h
    · exact ⟨i, by simp [assignSlots]⟩
    · obtain ⟨s, hs⟩ := @ih (i + 1) h
      exact ⟨s, by simp [assignSlots, hs]⟩

/-! ### Per-view trace uniforms (`src/voxel_pipeline/trace/mod.rs`)

`prepare_uniforms` runs once per frame over the query
`(Entity, &ExtractedView, &ViewTarget)`. Per view it computes the camera
matrix, recalls the previous frame's camera from the process-wide
`LastCameras` map (defaulting to the current camera), stores the current
camera back, and writes a `TraceUniforms` buffer onto the view entity. -/

/-- Per-view render toggles, `struct TraceSettings` (trace/mod.rs lines
59-74). Registered for extraction onto view entities. -/
structure TraceSettings where
  show_ray_steps : Bool
  samples : Nat
  shadows : Bool
deriving DecidableEq

/-- Source: `impl Default for TraceSettings`. -/
def TraceSettings.default : TraceSettings :=
  { show_ray_steps := false, samples := 1, shadows := true }

/-- Source: `struct TraceUniforms` (trace/mod.rs lines 76-86). The three toggle
fields are u32 in the shader interface. -/
structure TraceUniforms where
  camera : Mat4
  camera_inverse : Mat4
  last_camera : Mat4
  projection : Mat4
  time : Int
  show_ray_steps : Nat
  samples : Nat
  shadows : Nat
deriving DecidableEq

/-- One view entity as seen by the render world during the prepare phase.
`camera` and `camera_inverse` stand for the f32 matrix products
`projection * inverse(view)` and `view * inverse(projection)` computed on
lines 112-113; the matrix arithmetic itself is opaque data here.
`trace_settings` is the view's extracted `TraceSettings` component, which
is present on voxel cameras but not read by `prepare_uniforms`. -/
structure ViewInput where
  entity : Entity
  projection : Mat4
  camera : Mat4
  camera_inverse : Mat4
  trace_settings : Option TraceSettings
deriving DecidableEq

/-- The process-wide `LastCameras(HashMap<Entity, Mat4>)` resource. -/
abbrev LastCameras := List (Entity × Mat4)

/-- The body of the per-view loop of `prepare_uniforms` (trace/mod.rs lines
106-138): read `last_camera` with the current camera as fallback, record
the current camera, and build the uniforms. The scalar toggles are written
as the literals `false as u32`, `1`, `true as u32` from lines 124-126. -/
def prepareViewUniforms (elapsed : Int) (v : ViewInput) (lastCameras : LastCameras) :
    TraceUniforms × LastCameras :=
  let camera := v.camera
  let last_camera := (alistLookup lastCameras v.entity).getD camera
  let lastCameras1 := alistInsert lastCameras v.entity camera
  ({ camera := camera
     camera_inverse := v.camera_inverse
     last_camera := last_camera
     projection := v.projection
     time := elapsed
     show_ray_steps := 0
     samples := 1
     shadows := 1 }, lastCameras1)

/-- Source: `prepare_uniforms`, the fold of the per-view body over the frame's query
result, returning the uniforms written per entity and the updated
`LastCameras` map. -/
def prepare_uniforms (elapsed : Int) :
    List ViewInput → LastCameras → List (Entity × TraceUniforms) × LastCameras
  | [], lc => ([], lc)
  | v :: vs, lc =>
    let step := prepareViewUniforms elapsed v lc
    let rest := prepare_uniforms elapsed vs step.2
    ((v.entity, step.1) :: rest.1, rest.2)

/-- First view in the query belonging to entity `e`. -/
def findView : List ViewInput → Entity → Option ViewInput
  | [], _ => none
  | v :: vs, e => if v.entity = e then some v else findView vs e

theorem findView_entity {vs : List ViewInput} {e : Entity} {v : ViewInput}
    (h : findView vs e = some v) : v.entity = e := by
  induction vs with
  | nil => simp [findView] at h
  | cons w vs ih =>
    by_cases hw : w.entity = e
    · simp only [findView, hw, if_pos] at h
      obtain rfl := Option.some.inj h
      exact hw
    · simp only [findView, hw, if_neg, if_false] at h
      exact ih h

theorem findView_mem {vs : List ViewInput} {e : Entity} {v : ViewInput}
    (h : findView vs e = some v) : v ∈ vs := by
  induction vs with
  | nil => simp [findView] at h
  | cons w vs ih =>
    by_cases hw : w.entity = e
    · simp only [findView, hw, if_pos] at h
      obtain rfl := Option.some.inj h
      exact List.mem_cons_self _ _
    · simp only [findView, hw, if_neg, if_false] at h
      exact List.mem_cons_of_mem w (ih h)

theorem prepare_uniforms_emitted {elapsed : Int} {vs : List ViewInput}
    {lc : LastCameras} {e : Entity} {v : ViewInput}
    (hnd : (vs.map ViewInput.entity).Nodup)
    (hv : findView vs e = some v) :
    alistLookup (prepare_uniforms elapsed vs lc).1 e =
      some (prepareViewUniforms elapsed v lc).1 := by
  induction vs generalizing lc with
  | nil => simp [findView] at hv
  | cons w vs ih =>
    have hnd' : (∀ x ∈ vs, ¬x.entity = w.entity) ∧ (vs.map ViewInput.entity).Nodup := by
      simpa using hnd
    by_cases hw : w.entity = e
    · simp only [findView, hw, if_pos] at hv
      obtain rfl := Option.some.inj hv
      simp only [prepare_uniforms, alistLookup, hw, if_pos]
    · simp only [findView, hw, if_neg, if_false] at hv
      have hve : v.entity = e := findView_entity hv
      have hwv : w.entity ≠ v.entity := fun hcontra => hw (hve ▸ hcontra)
      simp only [prepare_uniforms, alistLookup, hw, if_neg, if_false]
      rw [ih hnd'.2 hv]
      simp only [prepareViewUniforms]
      rw [alistLookup_insert_ne lc w.entity v.entity w.camera hwv]

theorem prepare_uniforms_map_after {elapsed : Int} {vs : List ViewInput}
    {lc : LastCameras} {e : Entity}
    (hnd : (vs.map ViewInput.entity).Nodup) :
    alistLookup (prepare_uniforms elapsed vs lc).2 e =
      (match findView vs e with
        | some v => some v.camera
        | none => alistLookup lc e) := by
  induction vs generalizing lc with
  | nil => simp [prepare_uniforms, findView]
  | cons w vs ih =>
    have hnd' : (∀ x ∈ vs, ¬x.entity = w.entity) ∧ (vs.map ViewInput.entity).Nodup := by
      simpa using hnd
    by_cases hw : w.entity = e
    · have hnotin : findView vs e = none := by
        cases hfv : findView vs e with
        | none => rfl
        | some v =>
          exact absurd (hw ▸ findView_entity hfv) (hnd'.1 v (findView_mem hfv))
      simp only [findView, hw, if_pos, prepare_uniforms]
      rw [ih hnd'.2, hnotin]
      simp only [prepareViewUniforms]
      rw [hw]
      exact alistLookup_insert_self lc e w.camera
    · simp only [findView, hw, if_neg, if_false, prepare_uniforms]
      rw [ih hnd'.2]
      cases hfv : findView vs e with
      | some v => rfl
      | none =>
        simp only [prepareViewUniforms]
        exact alistLookup_insert_ne lc w.entity e w.camera hw

/-- A concrete view entity used as evaluation input. -/
def vA : ViewInput :=
  { entity := 1, projection := 10, camera := 11, camera_inverse := 12,
    trace_settings := none }

/-- A concrete view entity whose `TraceSettings` component holds
non-default values. -/
def viewWithSettings : ViewInput :=
  { entity := 7, projection := 2, camera := 3, camera_inverse := 4,
    trace_settings := some { show_ray_steps := true, samples := 2, shadows := false } }

/-- The uniforms `prepare_uniforms` emits for `vA` on its second frame. -/
def u2A : TraceUniforms :=
  { camera := 11, camera_inverse := 12, last_camera := 11, projection := 10,
    time := 5, show_ray_steps := 0, samples := 1, shadows := 1 }

/-- The uniforms `prepare_uniforms` emits for `vA` on its first frame. -/
def u1A : TraceUniforms :=
  { camera := 11, camera_inverse := 12, last_camera := 11, projection := 10,
    time := 4, show_ray_steps := 0, samples := 1, shadows := 1 }

/-- The uniforms `prepare_uniforms` emits for `viewWithSettings`. -/
def u5A : TraceUniforms :=
  { camera := 3, camera_inverse := 4, last_camera := 3, projection := 2,
    time := 0, show_ray_steps := 0, samples := 1, shadows := 1 }

/-- C3: for every view, the `last_camera` field written into that view's
`TraceUniforms` equals the camera matrix written for the same view on the
previous frame, and on the view's first frame (no prior entry in the
`LastCameras` map) `last_camera` equals the current frame's camera. -/
theorem trace_last_camera_prev_frame
    (el₁ el₂ : Int) (vs₁ vs₂ : List ViewInput) (lc₀ : LastCameras) (e : Entity)
    (hnd₁ : (vs₁.map ViewInput.entity).Nodup)
    (hnd₂ : (vs₂.map ViewInput.entity).Nodup) :
    (∀ v₁ v₂ u₂, findView vs₁ e = some v₁ → findView vs₂ e = some v₂ →
      alistLookup (prepare_uniforms el₂ vs₂ (prepare_uniforms el₁ vs₁ lc₀).2).1 e = some u₂ →
      u₂.last_camera = v₁.camera)
    ∧
    (∀ v u, alistLookup lc₀ e = none → findView vs₁ e = some v →
      alistLookup (prepare_uniforms el₁ vs₁ lc₀).1 e = some u →
      u.last_camera = u.camera) := by
  constructor
  · intro v₁ v₂ u₂ hv₁ hv₂ hu₂
    rw [prepare_uniforms_emitted hnd₂ hv₂] at hu₂
    obtain rfl := Option.some.inj hu₂
    have hve : v₂.entity = e := findView_entity hv₂
    have hafter : alistLookup (prepare_uniforms el₁ vs₁ lc₀).2 e = some v₁.camera := by
      rw [@prepare_uniforms_map_after el₁ vs₁ lc₀ e hnd₁, hv₁]
    simp only [prepareViewUniforms]
    rw [hve, hafter]
    rfl
  · intro v u hnone hv hu
    rw [prepare_uniforms_emitted hnd₁ hv] at hu
    obtain rfl := Option.some.inj hu
    have hve : v.entity = e := findView_entity hv
    simp [prepareViewUniforms, hve, hnone]

/-- Witness for C3: running `vA` through two frames, the second frame's
uniforms recall the first frame's camera; and the first frame's uniforms
have `last_camera = camera`. -/
theorem trace_last_camera_prev_frame_witness :
    (alistLookup (prepare_uniforms 5 [vA] (prepare_uniforms 4 [vA] []).2).1 1 = some u2A ∧
      u2A.last_camera = vA.camera) ∧
    (alistLookup (prepare_uniforms 4 [vA] []).1 1 = some u1A ∧
      u1A.last_camera = u1A.camera) := by
  refine ⟨⟨by decide, ?_⟩, by decide, ?_⟩
  · exact (trace_last_camera_prev_frame 4 5 [vA] [vA] [] 1 (by decide) (by decide)).1
      vA vA u2A rfl rfl (by decide)
  · exact (trace_last_camera_prev_frame 4 5 [vA] [vA] [] 1 (by decide) (by decide)).2
      vA u1A (by decide) rfl (by decide)

/-- C9: `prepare_uniforms` never removes a `LastCameras` entry: any key
present before a run is still present after it, so stale views persist
indefinitely. -/
theorem last_cameras_monotone
    (elapsed : Int) (vs : List ViewInput) (lc : LastCameras) (e : Entity)
    (h : (alistLookup lc e).isSome) :
    (alistLookup (prepare_uniforms elapsed vs lc).2 e).isSome := by
  induction vs generalizing lc with
  | nil => simpa [prepare_uniforms] using h
  | cons w vs ih =>
    simp only [prepare_uniforms]
    exact ih _ (alistLookup_insert_isSome lc w.entity e w.camera h)

/-- Witness for C9: an entry for a view (entity 2) that no longer appears
in the query survives the run. -/
theorem last_cameras_monotone_witness :
    (alistLookup (prepare_uniforms 0 [vA] [(2, 9)]).2 2).isSome :=
  last_cameras_monotone 0 [vA] [(2, 9)] 2 (by decide)

/-- C5 (amended): the uniforms written by `prepare_uniforms` always carry
`show_ray_steps = 0`, `samples = 1`, `shadows = 1` — the hard-coded
defaults — regardless of the view's `TraceSettings` component, which the
system never reads. -/
theorem prepare_uniforms_constant_settings
    (elapsed : Int) (vs : List ViewInput) (lc : LastCameras) (e : Entity)
    (u : TraceUniforms)
    (h : alistLookup (prepare_uniforms elapsed vs lc).1 e = some u) :
    u.show_ray_steps = 0 ∧ u.samples = 1 ∧ u.shadows = 1 := by
  induction vs generalizing lc with
  | nil => simp [prepare_uniforms, alistLookup] at h
  | cons w vs ih =>
    simp only [prepare_uniforms, alistLookup] at h
    by_cases hw : w.entity = e
    · rw [if_pos hw] at h
      obtain rfl := Option.some.inj h
      exact ⟨rfl, rfl, rfl⟩
    · rw [if_neg hw] at h
      exact ih _ h

/-- Witness for C5's amended theorem: the uniforms emitted for
`viewWithSettings` (whose component asks for 2 samples, no shadows) carry
the constants. -/
theorem prepare_uniforms_constant_settings_witness :
    u5A.show_ray_steps = 0 ∧ u5A.samples = 1 ∧ u5A.shadows = 1 :=
  prepare_uniforms_constant_settings 0 [viewWithSettings] [] 7 u5A (by decide)

/-- Counterexample for C5 as stated: `viewWithSettings` carries a
`TraceSettings` component with `samples = 2`, yet the uniforms written for
it have `samples = 1`, so the uniform does not equal the component's
values. -/
theorem trace_settings_ignored_cex :
    viewWithSettings.trace_settings =
      some { show_ray_steps := true, samples := 2, shadows := false } ∧
    (alistLookup (prepare_uniforms 0 [viewWithSettings] []).1 7).map TraceUniforms.samples
      = some 1 ∧
    (alistLookup (prepare_uniforms 0 [viewWithSettings] []).1 7).map TraceUniforms.samples
      ≠ some 2 := by
  decide

/-! ### Trace render node (`src/voxel_pipeline/trace/node.rs`)

`TraceNode::run` checks the `trace` toggle, looks the cached render
pipeline up, swaps the view's post-process target, fetches the view's
normal/position attachment images from `RenderAssets<Image>` (with
`.expect`, which panics when absent), and records one fullscreen draw. -/

/-- Per-view auxiliary render targets, `struct RenderAttachments`
(attachments.rs lines 21-26). -/
structure RenderAttachments where
  current_size : Nat × Nat
  normal : ImageHandle
  position : ImageHandle
deriving DecidableEq

/-- A GPU image that has been uploaded to `RenderAssets<Image>`; only its
identity matters here. -/
structure GpuImage where
  texture_view : Nat
deriving DecidableEq

/-- The view query of `TraceNode` : `(ViewTarget, ViewTraceUniformBuffer,
RenderAttachments)`. -/
structure TraceViewQuery where
  target : Nat
  trace_uniform_buffer : Nat
  render_attachments : RenderAttachments
deriving DecidableEq

/-- GPU work recorded by `TraceNode::run`, in order. -/
inductive TraceCmd where
  | postProcessWrite
  | beginTracePass
  | setBindGroup (index : Nat)
  | setPipeline
  | draw
deriving DecidableEq

/-- Outcome of a render-graph node run: success with the recorded GPU
commands, or a Rust panic with the `.expect` message. -/
inductive NodeRunResult where
  | ok (cmds : List TraceCmd)
  | panic (msg : String)
deriving DecidableEq

def NodeRunResult.isOk : NodeRunResult → Bool
  | .ok _ => true
  | .panic _ => false

/-- The world resources `TraceNode::run` reads. -/
structure TraceWorld where
  trace_setting : Bool
  pipeline : Option Nat
  gpu_images : List (ImageHandle × GpuImage)
deriving DecidableEq

/-- Source: `TraceNode::run` (trace/node.rs lines 27-115). The early returns are
the `!render_graph_settings.trace` check (lines 39-41) and the
pipeline-cache miss (lines 45-49); the two image fetches use `.expect`
(lines 56-63) and therefore panic when the image is absent. -/
def TraceNode.run (w : TraceWorld) (q : TraceViewQuery) : NodeRunResult :=
  if !w.trace_setting then .ok []
  else
    match w.pipeline with
    | none => .ok []
    | some _ =>
      match alistLookup w.gpu_images q.render_attachments.normal with
      | none => .panic "normal image not found"
      | some _ =>
        match alistLookup w.gpu_images q.render_attachments.position with
        | none => .panic "position image not found"
        | some _ =>
          .ok [.postProcessWrite, .beginTracePass, .setBindGroup 0,
               .setBindGroup 1, .setPipeline, .draw]

/-! ### Voxelization queue systems (`src/voxel_pipeline/voxelization.rs`) -/

/-- A `Transparent3d` phase item as queued by `queue_custom`; the f32
view-distance from the rangefinder is carried as opaque data. -/
structure Transparent3dItem where
  entity : Entity
  pipeline : Nat
  distance : Int
deriving DecidableEq

/-- An extracted mesh instance (`RenderMeshInstances` entry): the mesh
asset id and the translation the rangefinder distance is computed from. -/
structure MeshInstance where
  mesh_asset_id : Nat
  translation : Int
deriving DecidableEq

/-- Source: `queue_custom` (voxelization.rs lines 309-357): with the
`voxelization` toggle off it returns before touching any phase; otherwise
for every view it adds one `Transparent3d` item per entity carrying a
`VoxelizationMaterial` whose mesh instance and mesh asset both resolve.
`specialize` abstracts the pipeline-cache specialization and `rangefinder`
the per-view f32 distance computation. -/
def queue_custom (voxelization_setting : Bool)
    (material_meshes : List Entity)
    (render_mesh_instances : List (Entity × MeshInstance))
    (render_meshes : List (Nat × Nat))
    (specialize : Nat → Nat)
    (rangefinder : Int → Int)
    (views : List (List Transparent3dItem)) : List (List Transparent3dItem) :=
  if !voxelization_setting then views
  else
    views.map (fun phase =>
      phase ++ material_meshes.filterMap (fun e =>
        match alistLookup render_mesh_instances e with
        | none => none
        | some mi =>
          match alistLookup render_meshes mi.mesh_asset_id with
          | none => none
          | some layout =>
            some { entity := e, pipeline := specialize layout,
                   distance := rangefinder mi.translation }))

/-- A world state in which the trace pass is enabled and its pipeline has
compiled, but no image has been uploaded to `RenderAssets<Image>` yet. -/
def worldNoImages : TraceWorld :=
  { trace_setting := true, pipeline := some 0, gpu_images := [] }

/-- A view whose attachment handles are 0 (normal) and 1 (position). -/
def viewQ : TraceViewQuery :=
  { target := 0, trace_uniform_buffer := 0,
    render_attachments := { current_size := (1, 1), normal := 0, position := 1 } }

/-- Counterexample for C4 as stated: with the trace pipeline compiled but
the view's normal attachment image not yet in `RenderAssets<Image>`,
`TraceNode::run` panics through `.expect` instead of skipping the view and
returning success. -/
theorem trace_node_missing_image_panics_cex :
    TraceNode.run worldNoImages viewQ = .panic "normal image not found" ∧
    (TraceNode.run worldNoImages viewQ).isOk = false := by
  decide

/-- C4 (amended): when the render pipeline is not yet compiled,
`TraceNode::run` skips the pass and returns success; but when the view's
normal (or position) attachment image is missing from
`RenderAssets<Image>`, it panics with the corresponding `.expect` message
rather than skipping. -/
theorem trace_node_missing_resource_behavior
    (w : TraceWorld) (q : TraceViewQuery) :
    (w.pipeline = none → TraceNode.run w q = .ok []) ∧
    (w.trace_setting = true → w.pipeline ≠ none →
      alistLookup w.gpu_images q.render_attachments.normal = none →
      TraceNode.run w q = .panic "normal image not found") ∧
    (w.trace_setting = true → w.pipeline ≠ none →
      (alistLookup w.gpu_images q.render_attachments.normal).isSome →
      alistLookup w.gpu_images q.render_attachments.position = none →
      TraceNode.run w q = .panic "position image not found") := by
  refine ⟨?_, ?_, ?_⟩
  · intro hp
    cases hs : w.trace_setting with
    | false => simp [TraceNode.run, hs]
    | true => simp [TraceNode.run, hs, hp]
  · intro hs hp hn
    cases hpipe : w.pipeline with
    | none => exact absurd hpipe hp
    | some p => simp [TraceNode.run, hs, hpipe, hn]
  · intro hs hp hn hpos
    cases hpipe : w.pipeline with
    | none => exact absurd hpipe hp
    | some p =>
      cases hnorm : alistLookup w.gpu_images q.render_attachments.normal with
      | none => rw [hnorm] at hn; simp at hn
      | some img => simp [TraceNode.run, hs, hpipe, hnorm, hpos]

/-- Witness for C4's amended theorem: a world without a compiled pipeline
skips, and `worldNoImages` panics on the missing normal image. -/
theorem trace_node_missing_resource_behavior_witness :
    TraceNode.run { trace_setting := true, pipeline := none, gpu_images := [] } viewQ = .ok [] ∧
    TraceNode.run worldNoImages viewQ = .panic "normal image not found" :=
  ⟨(trace_node_missing_resource_behavior
      { trace_setting := true, pipeline := none, gpu_images := [] } viewQ).1 rfl,
    (trace_node_missing_resource_behavior worldNoImages viewQ).2.1 rfl (by decide) rfl⟩

/-- C6: disabling a pass through `RenderGraphSettings` makes it a no-op:
with the `trace` flag false `TraceNode::run` records no GPU commands and
succeeds, and with the `voxelization` flag false `queue_custom` leaves
every view's phase exactly as it found it. -/
theorem disabled_passes_are_noops
    (w : TraceWorld) (q : TraceViewQuery)
    (material_meshes : List Entity)
    (render_mesh_instances : List (Entity × MeshInstance))
    (render_meshes : List (Nat × Nat))
    (specialize : Nat → Nat) (rangefinder : Int → Int)
    (views : List (List Transparent3dItem)) :
    (w.trace_setting = false → TraceNode.run w q = .ok []) ∧
    queue_custom false material_meshes render_mesh_instances render_meshes
      specialize rangefinder views = views := by
  constructor
  · intro hs
    simp [TraceNode.run, hs]
  · simp [queue_custom]

/-- Witness for C6: a concrete disabled-trace world records nothing, and a
concrete disabled voxelization queue leaves a non-empty phase unchanged. -/
theorem disabled_passes_are_noops_witness :
    TraceNode.run { trace_setting := false, pipeline := some 0, gpu_images := [] } viewQ = .ok [] ∧
    queue_custom false [3] [(3, { mesh_asset_id := 0, translation := 2 })] [(0, 0)]
      id id [[{ entity := 9, pipeline := 0, distance := 0 }]]
      = [[{ entity := 9, pipeline := 0, distance := 0 }]] :=
  ⟨(disabled_passes_are_noops
      { trace_setting := false, pipeline := some 0, gpu_images := [] } viewQ
      [3] [(3, { mesh_asset_id := 0, translation := 2 })] [(0, 0)] id id
      [[{ entity := 9, pipeline := 0, distance := 0 }]]).1 rfl,
    (disabled_passes_are_noops
      { trace_setting := false, pipeline := some 0, gpu_images := [] } viewQ
      [3] [(3, { mesh_asset_id := 0, translation := 2 })] [(0, 0)] id id
      [[{ entity := 9, pipeline := 0, distance := 0 }]]).2⟩

/-- C2: the render graphs assembled at startup contain exactly the
specified structure: in the main graph the edges Clear to Automata,
Automata to Animation, Animation to the camera driver; in the voxel
subgraph the chain Trace, Tonemapping, Fxaa, Ui, Upscaling plus Rebuild to
Physics to Trace, and the two named slot edges carrying the Attachments
node's normal and position outputs into the Trace node's inputs of the
same names. -/
theorem render_graph_structure :
    buildMainGraph.nodeEdges =
      [(MainLabel.Clear, MainLabel.Automata),
       (MainLabel.Automata, MainLabel.Animation),
       (MainLabel.Animation, MainLabel.CameraDriver)] ∧
    buildVoxelGraph.nodeEdges =
      [(VoxelLabel.Trace, VoxelLabel.Tonemapping),
       (VoxelLabel.Tonemapping, VoxelLabel.Fxaa),
       (VoxelLabel.Fxaa, VoxelLabel.Ui),
       (VoxelLabel.Ui, VoxelLabel.Upscaling),
       (VoxelLabel.Rebuild, VoxelLabel.Physics),
       (VoxelLabel.Physics, VoxelLabel.Trace)] ∧
    buildVoxelGraph.slotEdges =
      [(VoxelLabel.Attachments, "normal", VoxelLabel.Trace, "normal"),
       (VoxelLabel.Attachments, "position", VoxelLabel.Trace, "position")] ∧
    buildVoxelGraph.nodes =
      [VoxelLabel.Attachments, VoxelLabel.Trace, VoxelLabel.Tonemapping,
       VoxelLabel.Fxaa, VoxelLabel.Ui, VoxelLabel.Upscaling,
       VoxelLabel.Rebuild, VoxelLabel.Physics] := by
  refine ⟨rfl, rfl, rfl, rfl⟩

/-- C1: rebuilding the physics slot table from a duplicate-free set of
physics-active entities yields a dense permutation of `[0, n)` with
`n = min (size of the set) capacity`: every slot is below `dispatch_size`,
each entity owns exactly one slot, no slot belongs to two entities, every
slot below `dispatch_size` is owned, and every entity within capacity is
present. -/
theorem physics_slot_table_dense_permutation
    (es : List Entity) (cap : Nat) (hnd : es.Nodup) :
    (rebuildPhysicsSlots es cap).dispatch_size = min es.length cap ∧
    (∀ e s, (e, s) ∈ (rebuildPhysicsSlots es cap).entities →
      s < (rebuildPhysicsSlots es cap).dispatch_size) ∧
    (∀ e s₁ s₂, (e, s₁) ∈ (rebuildPhysicsSlots es cap).entities →
      (e, s₂) ∈ (rebuildPhysicsSlots es cap).entities → s₁ = s₂) ∧
    (∀ e₁ e₂ s, (e₁, s) ∈ (rebuildPhysicsSlots es cap).entities →
      (e₂, s) ∈ (rebuildPhysicsSlots es cap).entities → e₁ = e₂) ∧
    (∀ s, s < (rebuildPhysicsSlots es cap).dispatch_size →
      ∃ e, (e, s) ∈ (rebuildPhysicsSlots es cap).entities) ∧
    (∀ e, e ∈ es.take cap → ∃ s, (e, s) ∈ (rebuildPhysicsSlots es cap).entities) := by
  have hndt : (es.take cap).Nodup := (List.take_sublist cap es).nodup hnd
  refine ⟨?_, ?_, ?_, ?_, ?_, ?_⟩
  · simp [rebuildPhysicsSlots, List.length_take, Nat.min_comm]
  · intro e s h
    have := assignSlots_mem_bounds h
    simpa [rebuildPhysicsSlots] using this.2
  · intro e s₁ s₂ h₁ h₂
    exact assignSlots_entity_unique hndt h₁ h₂
  · intro e₁ e₂ s h₁ h₂
    exact assignSlots_slot_inj h₁ h₂
  · intro s hs
    exact assignSlots_dense (Nat.zero_le s) (by simpa [rebuildPhysicsSlots] using hs)
  · intro e he
    exact assignSlots_mem_of_mem he

/-- Witness for C1: three entities with capacity 2 give dispatch size 2. -/
theorem physics_slot_table_dense_permutation_witness :
    (rebuildPhysicsSlots [5, 3, 9] 2).dispatch_size = min 3 2 ∧
    (rebuildPhysicsSlots [5, 3, 9] 2).entities = [(5, 0), (3, 1)] :=
  ⟨(physics_slot_table_dense_permutation [5, 3, 9] 2 (by decide)).1, by decide⟩

/-! ### Attachment resizing (`src/voxel_pipeline/attachments.rs`)

`resize_attachments` iterates the `(&mut RenderAttachments, &Camera)`
query; per view it unwraps `camera.physical_viewport_size()`, and when the
size differs from `current_size` it updates `current_size` and resizes the
normal and position images fetched with `.get_mut(..).unwrap()`. -/

/-- An entry of `Assets<Image>`: only the allocation size matters here;
`Image::resize` reallocates the backing data to the new extent. -/
structure ImageAsset where
  size : Nat × Nat
deriving DecidableEq

/-- The `Camera` component as read by `resize_attachments`: bevy's
`physical_viewport_size()` returns `None` when the camera has no defined
viewport. -/
structure Camera where
  physical_viewport_size : Option (Nat × Nat)
deriving DecidableEq

/-- One iteration of the `resize_attachments` loop (attachments.rs lines
72-93). `none` models a Rust panic from one of the three `.unwrap()`
calls. On success it returns the updated image store, the updated
component, and the log of image reallocations performed. -/
def resizeStep (images : List (ImageHandle × ImageAsset))
    (ra : RenderAttachments) (cam : Camera) :
    Option (List (ImageHandle × ImageAsset) × RenderAttachments ×
      List (ImageHandle × (Nat × Nat))) :=
  match cam.physical_viewport_size with
  | none => none
  | some size =>
    if size ≠ ra.current_size then
      match alistLookup images ra.normal with
      | none => none
      | some normal_image =>
        let images1 := alistInsert images ra.normal { normal_image with size := size }
        match alistLookup images1 ra.position with
        | none => none
        | some position_image =>
          let images2 := alistInsert images1 ra.position { position_image with size := size }
          some (images2, { ra with current_size := size },
            [(ra.normal, size), (ra.position, size)])
    else
      some (images, ra, [])

/-- The `resize_attachments` system: the loop over the whole query,
threading `Assets<Image>` through and concatenating the reallocation
logs. -/
def resize_attachments (images : List (ImageHandle × ImageAsset)) :
    List (RenderAttachments × Camera) →
    Option (List (ImageHandle × ImageAsset) × List RenderAttachments ×
      List (ImageHandle × (Nat × Nat)))
  | [] => some (images, [], [])
  | (ra, cam) :: rest =>
    match resizeStep images ra cam with
    | none => none
    | some (images1, ra1, log1) =>
      match resize_attachments images1 rest with
      | none => none
      | some (images2, ras, log2) => some (images2, ra1 :: ras, log1 ++ log2)

/-- C7: for a view whose camera viewport size `B` differs from the stored
`current_size`, one run of `resize_attachments` reallocates the normal and
the position image exactly once each (to `B`) and updates `current_size`;
running it again with the unchanged viewport size performs zero
reallocations and leaves everything as it was. -/
theorem resize_attachments_exactly_once
    (images : List (ImageHandle × ImageAsset)) (ra : RenderAttachments)
    (cam : Camera) (B : Nat × Nat) (ni pi : ImageAsset)
    (hvp : cam.physical_viewport_size = some B)
    (hsize : ra.current_size ≠ B)
    (hhandles : ra.normal ≠ ra.position)
    (hn : alistLookup images ra.normal = some ni)
    (hp : alistLookup images ra.position = some pi) :
    resize_attachments images [(ra, cam)] =
      some (alistInsert (alistInsert images ra.normal { size := B }) ra.position { size := B },
            [{ ra with current_size := B }],
            [(ra.normal, B), (ra.position, B)]) ∧
    resize_attachments
        (alistInsert (alistInsert images ra.normal { size := B }) ra.position { size := B })
        [({ ra with current_size := B }, cam)] =
      some (alistInsert (alistInsert images ra.normal { size := B }) ra.position { size := B },
            [{ ra with current_size := B }], []) := by
  have hB : B ≠ ra.current_size := fun h => hsize h.symm
  have hp1 : alistLookup (alistInsert images ra.normal { ni with size := B }) ra.position
      = some pi := by
    rw [alistLookup_insert_ne images ra.normal ra.position _ hhandles]
    exact hp
  constructor
  · simp only [resize_attachments, resizeStep, hvp, hn, if_pos hB, ne_eq, hB,
      not_false_iff, if_true, hp1]
    rfl
  · simp only [resize_attachments, resizeStep, hvp]
    norm_num

/-- Witness for C7: a concrete two-image store resized from (1,1) to
(4,3), then re-run with no further reallocation. -/
theorem resize_attachments_exactly_once_witness :
    resize_attachments [(0, { size := (1, 1) }), (1, { size := (1, 1) })]
      [({ current_size := (1, 1), normal := 0, position := 1 },
        { physical_viewport_size := some (4, 3) })] =
      some ([(0, { size := (4, 3) }), (1, { size := (4, 3) })],
            [{ current_size := (4, 3), normal := 0, position := 1 }],
            [(0, (4, 3)), (1, (4, 3))]) ∧
    resize_attachments [(0, { size := (4, 3) }), (1, { size := (4, 3) })]
      [({ current_size := (4, 3), normal := 0, position := 1 },
        { physical_viewport_size := some (4, 3) })] =
      some ([(0, { size := (4, 3) }), (1, { size := (4, 3) })],
            [{ current_size := (4, 3), normal := 0, position := 1 }], []) := by
  have h := resize_attachments_exactly_once
    [(0, { size := (1, 1) }), (1, { size := (1, 1) })]
    { current_size := (1, 1), normal := 0, position := 1 }
    { physical_viewport_size := some (4, 3) }
    (4, 3) { size := (1, 1) } { size := (1, 1) }
    rfl (by decide) (by decide) rfl rfl
  exact ⟨h.1.trans (by decide), (by decide : _ = _).symm.trans (h.2.trans (by decide))⟩

/-- C10: `resize_attachments` is panic-free exactly under its implicit
precondition. If every queried camera has a defined physical viewport size
and both attachment handles resolve in `Assets<Image>`, the run succeeds;
but if any queried camera's viewport size is `None`, the run panics
(returns `none`) instead of skipping that view. -/
theorem resize_attachments_unwrap_precondition
    (images : List (ImageHandle × ImageAsset))
    (query : List (RenderAttachments × Camera)) :
    ((∀ p ∈ query, (p.2.physical_viewport_size).isSome ∧
        (alistLookup images p.1.normal).isSome ∧
        (alistLookup images p.1.position).isSome) →
      (resize_attachments images query).isSome) ∧
    (∀ p ∈ query, p.2.physical_viewport_size = none →
      resize_attachments images query = none) := by
  constructor
  · intro hpre
    induction query generalizing images with
    | nil => simp [resize_attachments]
    | cons hd rest ih =>
      obtain ⟨ra, cam⟩ := hd
      obtain ⟨hvp, hn, hp⟩ := hpre (ra, cam) (List.mem_cons_self _ _)
      obtain ⟨B, hB⟩ := Option.isSome_iff_exists.mp hvp
      obtain ⟨ni, hni⟩ := Option.isSome_iff_exists.mp hn
      obtain ⟨pi, hpi⟩ := Option.isSome_iff_exists.mp hp
      have hB' : cam.physical_viewport_size = some B := hB
      have hni' : alistLookup images ra.normal = some ni := hni
      have hpi' : alistLookup images ra.position = some pi := hpi
      by_cases hsz : B ≠ ra.current_size
      · have hp1 : (alistLookup (alistInsert images ra.normal { ni with size := B })
            ra.position).isSome := by
          apply alistLookup_insert_isSome
          simp [hpi']
        obtain ⟨pi1, hpi1⟩ := Option.isSome_iff_exists.mp hp1
        have hstep : resizeStep images ra cam =
            some (alistInsert (alistInsert images ra.normal { ni with size := B })
                    ra.position { pi1 with size := B },
                  { ra with current_size := B },
                  [(ra.normal, B), (ra.position, B)]) := by
          simp only [resizeStep, hB', hni', if_pos hsz, hpi1]
        have hrest := ih
          (alistInsert (alistInsert images ra.normal { ni with size := B })
            ra.position { pi1 with size := B })
          (fun p hmem => by
            obtain ⟨h1, h2, h3⟩ := hpre p (List.mem_cons_of_mem _ hmem)
            exact ⟨h1,
              alistLookup_insert_isSome _ _ _ _ (alistLookup_insert_isSome _ _ _ _ h2),
              alistLookup_insert_isSome _ _ _ _ (alistLookup_insert_isSome _ _ _ _ h3)⟩)
        obtain ⟨r, hr⟩ := Option.isSome_iff_exists.mp hrest
        obtain ⟨i2, ras, log2⟩ := r
        simp [resize_attachments, hstep, hr]
      · rw [not_ne_iff] at hsz
        have hstep : resizeStep images ra cam = some (images, ra, []) := by
          simp [resizeStep, hB', hsz]
        have hrest := ih images
          (fun p hmem => hpre p (List.mem_cons_of_mem _ hmem))
        obtain ⟨r, hr⟩ := Option.isSome_iff_exists.mp hrest
        obtain ⟨i2, ras, log2⟩ := r
        simp [resize_attachments, hstep, hr]
  · intro p hmem hnone
    induction query generalizing images with
    | nil => simp at hmem
    | cons hd rest ih =>
      obtain ⟨ra, cam⟩ := hd
      rcases List.mem_cons.mp hmem with heq | hmem'
      · subst heq
        have hnone' : cam.physical_viewport_size = none := hnone
        simp [resize_attachments, resizeStep, hnone']
      · cases hstep : resizeStep images ra cam with
        | none => simp [resize_attachments, hstep]
        | some r =>
          obtain ⟨i1, ra1, log1⟩ := r
          have hrec := ih i1 hmem'
          simp [resize_attachments, hstep, hrec]

/-- Witness for C10: an empty image store succeeds on an empty query, and
a camera whose viewport size is `None` makes the run panic. -/
theorem resize_attachments_unwrap_precondition_witness :
    (resize_attachments ([(0, { size := (1, 1) })]) []).isSome ∧
    resize_attachments [(0, { size := (1, 1) })]
      [({ current_size := (1, 1), normal := 0, position := 0 },
        { physical_viewport_size := none })] = none :=
  ⟨(resize_attachments_unwrap_precondition [(0, { size := (1, 1) })] []).1
      (fun p hmem => absurd hmem (List.not_mem_nil p)),
    (resize_attachments_unwrap_precondition [(0, { size := (1, 1) })]
      [({ current_size := (1, 1), normal := 0, position := 0 },
        { physical_viewport_size := none })]).2
      ({ current_size := (1, 1), normal := 0, position := 0 },
        { physical_viewport_size := none })
      (List.mem_cons_self _ _) rfl⟩

/-! ### Voxelization per-entity uniforms (`queue_bind_group`,
voxelization.rs lines 365-427)

`queue_bind_group` first upserts (`entry(..).or_insert(..)` followed by
`set`) one uniform entry per entity currently carrying a
`VoxelizationMaterial`, then sweeps out every entry whose entity the query
no longer returns. -/

/-- Source: `enum VoxelizationMaterialType` (voxelization.rs lines 188-192). -/
inductive VoxelizationMaterialType where
  | texture (handle : ImageHandle)
  | material (index : Nat)
deriving DecidableEq

/-- Source: `struct VoxelizationMaterial` (voxelization.rs lines 173-177);
`material` is a u8 index or a texture handle, `flags` a u8 bitset. -/
structure VoxelizationMaterial where
  material : VoxelizationMaterialType
  flags : Nat
deriving DecidableEq

/-- Source: `struct VoxelizationUniforms` (voxelization.rs lines 194-198). -/
structure VoxelizationUniforms where
  material : Nat
  flags : Nat
deriving DecidableEq

/-- Source: `impl From<&VoxelizationMaterial> for VoxelizationUniforms`
(voxelization.rs lines 200-211): a texture reference becomes the reserved
material id 255. -/
def VoxelizationUniforms.ofMaterial (v : VoxelizationMaterial) : VoxelizationUniforms :=
  { material :=
      match v.material with
      | .texture _ => 255
      | .material m => m
    flags := v.flags }

/-- Source: `queue_bind_group` restricted to its effect on the
`VoxelizationUniformsResource` map: the per-entity upsert loop followed by
the cleanup sweep removing entries for vanished entities. Buffer writes
and bind-group creation are GPU effects carrying no CPU state. -/
def queue_bind_group (voxelization_materials : List (Entity × VoxelizationMaterial))
    (voxelization_uniforms : List (Entity × VoxelizationUniforms)) :
    List (Entity × VoxelizationUniforms) :=
  let upserted := voxelization_materials.foldl
    (fun acc p => alistInsert acc p.1 (VoxelizationUniforms.ofMaterial p.2))
    voxelization_uniforms
  upserted.filter (fun p => (alistLookup voxelization_materials p.1).isSome)

theorem alistLookup_eq_none_of_not_mem {α β : Type} [DecidableEq α]
    {l : List (α × β)} {a : α} (h : a ∉ l.map Prod.fst) :
    alistLookup l a = none := by
  induction l with
  | nil => rfl
  | cons p rest ih =>
    obtain ⟨k, v⟩ := p
    simp only [List.map_cons, List.mem_cons] at h
    push_neg at h
    simp only [alistLookup]
    rw [if_neg (fun hk => h.1 hk.symm)]
    exact ih h.2

theorem alistLookup_filter_key {β : Type}
    (l : List (Entity × β)) (q : Entity → Bool) (e : Entity) :
    alistLookup (l.filter (fun p => q p.1)) e =
      if q e then alistLookup l e else none := by
  induction l with
  | nil => cases hq : q e <;> simp [alistLookup, hq]
  | cons p rest ih =>
    obtain ⟨k, v⟩ := p
    by_cases hk : k = e
    · subst hk
      cases hq : q k with
      | true => simp [List.filter, hq, alistLookup, ih]
      | false => simp [List.filter, hq, alistLookup, ih]
    · cases hq : q k with
      | true => simp [List.filter, hq, alistLookup, hk, ih]
      | false => simp [List.filter, hq, alistLookup, hk, ih]

theorem alistLookup_foldl_upsert {ms : List (Entity × VoxelizationMaterial)}
    {acc : List (Entity × VoxelizationUniforms)} {e : Entity}
    (hnd : (ms.map Prod.fst).Nodup) :
    alistLookup (ms.foldl
      (fun a p => alistInsert a p.1 (VoxelizationUniforms.ofMaterial p.2)) acc) e =
      (match alistLookup ms e with
        | some m => some (VoxelizationUniforms.ofMaterial m)
        | none => alistLookup acc e) := by
  induction ms generalizing acc with
  | nil => simp [alistLookup]
  | cons p rest ih =>
    obtain ⟨k, m⟩ := p
    have hnd' : k ∉ rest.map Prod.fst ∧ (rest.map Prod.fst).Nodup := by
      simpa using hnd
    simp only [List.foldl_cons]
    rw [ih hnd'.2]
    by_cases hk : k = e
    · subst hk
      have hrest : alistLookup rest k = none := alistLookup_eq_none_of_not_mem hnd'.1
      rw [hrest]
      simp only [alistLookup, if_pos rfl]
      exact alistLookup_insert_self acc k _
    · simp only [alistLookup, if_neg hk]
      cases hfv : alistLookup rest e with
      | some m2 => rfl
      | none => exact alistLookup_insert_ne acc k e _ hk

/-- C8: after every run of `queue_bind_group` the per-entity voxelization
uniform map holds an entry for exactly the entities the query currently
returns: a queried entity's entry exists and equals its material's
uniforms (created on first appearance, rewritten every frame), and an
entity absent from the query — however long its entry survived from
previous frames — has no entry after the run (the end-of-run cleanup
sweep). -/
theorem queue_bind_group_exact_tracking
    (ms : List (Entity × VoxelizationMaterial))
    (us : List (Entity × VoxelizationUniforms)) (e : Entity)
    (hnd : (ms.map Prod.fst).Nodup) :
    (∀ m, alistLookup ms e = some m →
      alistLookup (queue_bind_group ms us) e =
        some (VoxelizationUniforms.ofMaterial m)) ∧
    (alistLookup ms e = none → alistLookup (queue_bind_group ms us) e = none) := by
  constructor
  · intro m hm
    simp only [queue_bind_group]
    rw [alistLookup_filter_key _ (fun a => (alistLookup ms a).isSome) e,
      if_pos (by simp [hm]), alistLookup_foldl_upsert hnd, hm]
  · intro hm
    simp only [queue_bind_group]
    rw [alistLookup_filter_key _ (fun a => (alistLookup ms a).isSome) e,
      if_neg (by simp [hm])]

/-- Witness for C8: entity 1 (material 8) gets its uniforms written while
the stale entry for entity 4 is swept out in the same run. -/
theorem queue_bind_group_exact_tracking_witness :
    alistLookup (queue_bind_group
        [(1, { material := .material 8, flags := 0 }),
         (2, { material := .texture 5, flags := 3 })]
        [(4, { material := 0, flags := 0 })]) 1 =
      some { material := 8, flags := 0 } ∧
    alistLookup (queue_bind_group
        [(1, { material := .material 8, flags := 0 }),
         (2, { material := .texture 5, flags := 3 })]
        [(4, { material := 0, flags := 0 })]) 4 = none :=
  ⟨(queue_bind_group_exact_tracking
      [(1, { material := .material 8, flags := 0 }),
       (2, { material := .texture 5, flags := 3 })]
      [(4, { material := 0, flags := 0 })] 1 (by decide)).1
      { material := .material 8, flags := 0 } rfl,
    (queue_bind_group_exact_tracking
      [(1, { material := .material 8, flags := 0 }),
       (2, { material := .texture 5, flags := 3 })]
      [(4, { material := 0, flags := 0 })] 4 (by decide)).2 rfl⟩
